import Mathlib

/-!
Shallow embedding of the partial DOM reconciliation engine found in
`src/assets/main.js`: `theme.mergeNodes` with its collaborators
`theme.hideAndRemove` and `theme.insertAndReveal`.

Modelling conventions:
* A data attribute read through `el.dataset.x` is an `Option String`
  (`none` when the attribute is absent).  JavaScript truthiness of the
  read value is `jsTruthy` (both `undefined` and the empty string are
  falsy).
* `innerHTML` and the subtree under a node are abstracted into a
  `Content` value; assigning `innerHTML` replaces the whole value.
  The fields that the engine inspects are kept explicit: whether the
  node has an element child (`el.firstElementChild`), and the disabled
  flags of the descendant `input` elements.
* Marked nodes found by `querySelectorAll` on the fragment and the live
  container are flattened into per-kind lists kept in document order;
  `querySelector` is "first match in document order" = `List.find?`.
* DOM node identity of list items is an explicit `id : Nat` so that the
  aliasing between the live DOM and the `targetListItems` tracking
  array (which holds node references) is represented faithfully.
* Exceptions (property access on `null`, …) are `Except Unit`.
* `setTimeout` scheduling inside `hideAndRemove` / `insertAndReveal`
  is modelled as the list of (absolute delay, phase) pairs produced by
  the nested timers; a JS number that may be `NaN` is `JSNum`.
-/

namespace Theme

/-- JS truthiness of a `dataset` read: `undefined` (absent attribute)
and the empty string are falsy, every other string is truthy. -/
def jsTruthy : Option String → Bool
  | none => false
  | some s => s != ""

/-- Writing a JS value into `dataset` coerces it to a string;
`undefined` becomes the literal string "undefined"
(this happens on line 177 of `main.js` when the new node has no
`data-merge-cache` attribute but the live one does). -/
def dsString : Option String → String
  | none => "undefined"
  | some s => s

/-- A JS number that may be `NaN` (result of `parseFloat` on a missing
or non-numeric CSS custom property, propagated through `* 1000`). -/
inductive JSNum
  | nan
  | num (q : ℚ)
deriving DecidableEq

/-- `x * 1000` on a JS number (`NaN * 1000 = NaN`). -/
def jsMul1000 : JSNum → JSNum
  | .nan => .nan
  | .num q => .num (q * 1000)

/-- Coercion of a JS number to a `setTimeout` delay: `NaN` and negative
values become 0, other values are truncated to a whole number of
milliseconds. -/
def toTimeout : JSNum → Nat
  | .nan => 0
  | .num q => (Int.floor q).toNat

/-- Abstraction of the subtree below a node (`innerHTML` plus the two
facts the engine observes about it: `el.firstElementChild` being
non-null, and the disabled flags of the descendant inputs, in document
order). -/
structure Content where
  hasElemChild : Bool
  inputs : List Bool
  html : String
deriving DecidableEq

/-- A node carrying `data-merge` (content marker): its key, its
optional `data-merge-cache` token and its inner content. -/
structure CNode where
  key : String
  cache : Option String
  content : Content
deriving DecidableEq

/-- A node carrying `data-merge-attributes`: its key and its full
attribute list (name/value pairs, in document order). -/
structure ANode where
  key : String
  attrs : List (String × String)
deriving DecidableEq

/-- A list item (`data-merge-list-item`): DOM node identity `id`, the
item key, optional cache token, content, and whether the node already
carries the class `merge-remove-item` (i.e. is mid-removal). -/
structure LItem where
  id : Nat
  key : String
  cache : Option String
  content : Content
  removing : Bool
deriving DecidableEq

/-- A list container (`data-merge-list`): its key and its item
children in DOM order. -/
structure LList where
  key : String
  items : List LItem
deriving DecidableEq

/-- A container (the new fragment or the live target): the marked
nodes found by the three `querySelectorAll` calls, in document
order. -/
structure Container where
  cnodes : List CNode
  anodes : List ANode
  lists : List LList
deriving DecidableEq

/-- Animation triggers emitted by a merge. -/
inductive InsPos
  | atStart
  | atEnd
  | before (tid : Nat)
deriving DecidableEq

inductive MEv
  | hideAndRemove (tid : Nat)
  | insertAndReveal (tid : Nat) (pos : InsPos)
deriving DecidableEq

/-- `container.querySelector([marker=k])`: first element with that
key, in document order.  (Also used with `Nat` node identities.) -/
def findByKey [BEq κ] (keyf : α → κ) (k : κ) (l : List α) : Option α :=
  l.find? (fun a => keyf a == k)

/-- Mutation of the node returned by `find?`: apply `f` to the first
element satisfying `p`, leave everything else in place. -/
def updateFirst (p : α → Bool) (f : α → α) : List α → List α
  | [] => []
  | a :: l => if p a then f a :: l else a :: updateFirst p f l

def updateByKey [BEq κ] (keyf : α → κ) (k : κ) (f : α → α) (l : List α) : List α :=
  updateFirst (fun a => keyf a == k) f l

/-- `arr.splice(i, 0, a)`: insert at index `i`, clamped to the array
length. -/
def spliceAt (l : List α) (i : Nat) (a : α) : List α :=
  l.take i ++ a :: l.drop i

/-- The replacement condition of the content pass (lines 172-174):
`!newEl.dataset.mergeCache || !targetEl.dataset.mergeCache ||
newEl.dataset.mergeCache !== targetEl.dataset.mergeCache`. -/
def contentReplaceCond (n t : CNode) : Bool :=
  !jsTruthy n.cache || !jsTruthy t.cache || n.cache != t.cache

/-- Effect of lines 175-178 on the live node: `innerHTML` is replaced
and, when either side has a truthy token, the new token value (with
`undefined` coerced to "undefined") is stamped on. -/
def contentApply (n t : CNode) : CNode :=
  let t1 : CNode := { t with content := n.content }
  if jsTruthy n.cache || jsTruthy t.cache then
    { t1 with cache := some (dsString n.cache) }
  else t1

/-- One iteration of the content pass (lines 170-180).  A missing live
counterpart makes `targetEl` null and the read
`targetEl.dataset.mergeCache` throw. -/
def mergeContentOne (live : List CNode) (n : CNode) : Except Unit (List CNode) :=
  match findByKey CNode.key n.key live with
  | none => .error ()
  | some t =>
      if contentReplaceCond n t then
        .ok (updateByKey CNode.key n.key (contentApply n) live)
      else .ok live

/-- The whole content pass: `newContent.querySelectorAll([data-merge])
.forEach(...)`. -/
def mergeContentPass (news live : List CNode) : Except Unit (List CNode) :=
  news.foldlM mergeContentOne live

/-- `el.setAttribute(n, v)`: overwrite the value in place if the name
exists, else append the attribute. -/
def setAttribute (attrs : List (String × String)) (n v : String) : List (String × String) :=
  if attrs.any (fun p => p.1 == n) then
    attrs.map (fun p => if p.1 == n then (n, v) else p)
  else attrs ++ [(n, v)]

/-- `el.getAttribute(n)`. -/
def getAttr (attrs : List (String × String)) (n : String) : Option String :=
  (attrs.find? (fun p => p.1 == n)).map Prod.snd

/-- The loop of lines 184-188: copy every attribute of the new node
onto the live node. -/
def syncAttrs (target news : List (String × String)) : List (String × String) :=
  news.foldl (fun acc p => setAttribute acc p.1 p.2) target

/-- One iteration of the attribute pass (lines 182-189).  When the live
counterpart is missing, `targetEl.setAttribute` throws on the first
loop iteration — i.e. only if the new node has at least one
attribute. -/
def mergeAttrOne (live : List ANode) (n : ANode) : Except Unit (List ANode) :=
  match findByKey ANode.key n.key live with
  | none => if n.attrs.isEmpty then .ok live else .error ()
  | some _ =>
      .ok (updateByKey ANode.key n.key
            (fun t => { t with attrs := syncAttrs t.attrs n.attrs }) live)

def mergeAttrPass (news live : List ANode) : Except Unit (List ANode) :=
  news.foldlM mergeAttrOne live

/-- Synchronous DOM effect of `theme.hideAndRemove` on the removed
item: every descendant input is disabled (line 117) and the class
`merge-remove-item` is added (line 124); the timer-driven fade/slide
phases and the final detach happen after the merge call returns, so
the item itself stays in the DOM. -/
def hideAndRemoveSync (it : LItem) : LItem :=
  { it with
      content := { it.content with inputs := it.content.inputs.map (fun _ => true) }
      removing := true }

/-- The removal pass (lines 197-203): every old item whose key matches
no new item is handed to `theme.hideAndRemove`; all others are left
alone.  Returns the updated DOM order together with the emitted
animation triggers. -/
def removePass (news : List LItem) : List LItem → List LItem × List MEv
  | [] => ([], [])
  | it :: rest =>
      let pr := removePass news rest
      if news.any (fun n => n.key == it.key) then (it :: pr.1, pr.2)
      else (hideAndRemoveSync it :: pr.1, .hideAndRemove it.id :: pr.2)

/-- The list-pass loop state: the live list's item children in DOM
order, the `targetListItems` tracking array (node references, modelled
by ids), and the accumulated animation triggers. -/
structure LState where
  items : List LItem
  tracked : List Nat
  evs : List MEv
deriving DecidableEq

/-- Dereference a node id in the DOM order. -/
def getItem (items : List LItem) (tid : Nat) : Option LItem :=
  findByKey LItem.id tid items

/-- `targetListItems.find(item => item.dataset.mergeListItem ===
newListItem.dataset.mergeListItem)`: first tracked node whose current
key equals `k`. -/
def trackedMatch (items : List LItem) (tracked : List Nat) (k : String) : Option LItem :=
  tracked.findSome? (fun tid =>
    match getItem items tid with
    | some it => if it.key == k then some it else none
    | none => none)

/-- Mutation through a node reference: update every DOM item carrying
this node identity. -/
def updItem (items : List LItem) (tid : Nat) (f : LItem → LItem) : List LItem :=
  items.map (fun it => if it.id == tid then f it else it)

/-- `target.insertAdjacentElement('beforebegin', n)` relative to the
node with identity `tid`. -/
def insertBeforeId (n : LItem) : List LItem → Nat → List LItem
  | [], _ => [n]
  | it :: rest, tid =>
      if it.id == tid then n :: it :: rest else it :: insertBeforeId n rest tid

/-- Apply an insertion position to the DOM order. -/
def applyInsert (items : List LItem) (pos : InsPos) (n : LItem) : List LItem :=
  match pos with
  | .atStart => n :: items
  | .atEnd => items ++ [n]
  | .before tid => insertBeforeId n items tid

/-- The replacement condition of the list update (lines 214-216),
textually the same test as the content pass. -/
def listReplaceCond (n m : LItem) : Bool :=
  !jsTruthy n.cache || !jsTruthy m.cache || n.cache != m.cache

/-- Effect of lines 217-220 on the matched live item: `innerHTML` is
replaced and the token is restamped only when the NEW item carries a
truthy token (unlike the content pass, the live item's own token does
not trigger a restamp). -/
def listItemApply (n m : LItem) : LItem :=
  let m1 : LItem := { m with content := n.content }
  if jsTruthy n.cache then { m1 with cache := n.cache } else m1

/-- One iteration of the insertion/update loop (lines 208-237) at
index `i` for new item `n`.  On an insertion, `theme.insertAndReveal`
adds the transient class, inserts the node into the DOM and only then
reads `el.firstElementChild.clientHeight` — which throws if the item
has no element child, before any timer is registered; on success the
new node is spliced into the tracking array at index `i`. -/
def insertUpdateStep (st : LState) (i : Nat) (n : LItem) : Except Unit LState :=
  match trackedMatch st.items st.tracked n.key with
  | some m =>
      if listReplaceCond n m then
        .ok { st with items := updItem st.items m.id (listItemApply n) }
      else .ok st
  | none =>
      let pos : InsPos :=
        if i = 0 then .atStart
        else if st.tracked.length ≤ i then .atEnd
        else .before (st.tracked.getD i 0)
      let items1 := applyInsert st.items pos n
      if n.content.hasElemChild then
        .ok { items := items1
              tracked := spliceAt st.tracked i n.id
              evs := st.evs ++ [.insertAndReveal n.id pos] }
      else .error ()

/-- The insertion/update loop, walking new items in order with their
index. -/
def insertUpdateLoop (news : List LItem) (st : LState) : Except Unit LState :=
  news.enum.foldlM (fun s p => insertUpdateStep s p.1 p.2) st

/-- One iteration of the list pass (lines 191-238) for one
`data-merge-list` container of the fragment.  A missing live list
makes `targetList` null and the `querySelectorAll` call on it throw.
The tracking array is rebuilt after the removal pass excluding every
item carrying `merge-remove-item` (line 206). -/
def mergeListOne (acc : List LList × List MEv) (nl : LList) :
    Except Unit (List LList × List MEv) :=
  match findByKey LList.key nl.key acc.1 with
  | none => .error ()
  | some tl =>
      let pr := removePass nl.items tl.items
      let tracked := (pr.1.filter (fun it => !it.removing)).map LItem.id
      match insertUpdateLoop nl.items ⟨pr.1, tracked, acc.2 ++ pr.2⟩ with
      | .error e => .error e
      | .ok st =>
          .ok (updateByKey LList.key nl.key (fun l => { l with items := st.items }) acc.1,
               st.evs)

def mergeListPass (newLists liveLists : List LList) :
    Except Unit (List LList × List MEv) :=
  newLists.foldlM mergeListOne (liveLists, [])

/-- The body of `theme.mergeNodes` inside the `try` block: the three
passes in sequence, threading the live container state and the emitted
animation triggers, propagating any exception. -/
def mergeBody (newC live : Container) : Except Unit (Container × List MEv) := do
  let cn ← mergeContentPass newC.cnodes live.cnodes
  let an ← mergeAttrPass newC.anodes live.anodes
  let lp ← mergeListPass newC.lists live.lists
  .ok ({ cnodes := cn, anodes := an, lists := lp.1 }, lp.2)

/-- Outcome of one `theme.mergeNodes` call: the patched container and
animation triggers when the body succeeded, and the number of
`window.location.reload()` calls performed. -/
structure MergeOutcome where
  result : Option (Container × List MEv)
  reloads : Nat
deriving DecidableEq

/-- `theme.mergeNodes` (lines 167-242): the whole body runs inside one
`try`; any exception is caught at the top level and converted into a
single `window.location.reload()`; the function itself always
returns. -/
def mergeNodes (newC live : Container) : MergeOutcome :=
  match mergeBody newC live with
  | .ok r => { result := some r, reloads := 0 }
  | .error _ => { result := none, reloads := 1 }

/-- Phases of the detach sequence of `theme.hideAndRemove`.  The
disable/wrap steps run synchronously; fade starts on a 10 ms timer,
slide after the fade duration, and the wrapper removal (detach) after
the slide duration. -/
inductive DetachPhase
  | disableInputs
  | wrap
  | fade
  | slide
  | detach
deriving DecidableEq

/-- Absolute (delay, phase) schedule produced by the nested timers of
`theme.hideAndRemove` (lines 115-140), as a function of the two parsed
CSS custom properties (already multiplied by 1000 in the code). -/
def detachSchedule (fade slide : JSNum) : List (Nat × DetachPhase) :=
  let fd := toTimeout (jsMul1000 fade)
  let sd := toTimeout (jsMul1000 slide)
  [(0, .disableInputs), (0, .wrap), (10, .fade), (10 + fd, .slide), (10 + fd + sd, .detach)]

/-- Phases of the reveal sequence of `theme.insertAndReveal`. -/
inductive RevealPhase
  | insert
  | slide
  | fade
  | cleanup
deriving DecidableEq

/-- Absolute (delay, phase) schedule of `theme.insertAndReveal`
(lines 142-165).  The element is inserted synchronously; the
unconditional read `el.firstElementChild.clientHeight` throws (before
any timer is registered) when the element has no element child.
`delay || 10` turns a falsy initial delay into 10. -/
def revealSchedule (hasElemChild : Bool) (delay : Nat) (fade slide : JSNum) :
    Except Unit (List (Nat × RevealPhase)) :=
  if hasElemChild then
    let d0 := if delay = 0 then 10 else delay
    let fd := toTimeout (jsMul1000 fade)
    let sd := toTimeout (jsMul1000 slide)
    .ok [(0, .insert), (d0, .slide), (d0 + sd, .fade), (d0 + sd + fd, .cleanup)]
  else .error ()

/-- The effect of one attribute-pass iteration on the matched node. -/
def attrApply (n : ANode) (t : ANode) : ANode :=
  { t with attrs := syncAttrs t.attrs n.attrs }

/-- The tracking array rebuilt on line 206: non-removing item ids. -/
def trackedOf (items : List LItem) : List Nat :=
  (items.filter (fun it => !it.removing)).map LItem.id

/-! Concrete fixtures used by counterexamples and witnesses. -/

def exCa : Content := ⟨true, [], "ca"⟩
def exCb : Content := ⟨true, [], "cb"⟩
def exCc : Content := ⟨true, [], "cc"⟩

def exItA : LItem := ⟨0, "A", some "ta", exCa, false⟩
def exItB : LItem := ⟨3, "B", some "tb", exCb, false⟩
def exItC : LItem := ⟨2, "C", some "tc", exCc, false⟩

/-- C2 example, live side: list with items `[A, C]`. -/
def exLiveAC : Container := ⟨[], [], [⟨"L", [exItA, exItC]⟩]⟩

/-- C2 example, new side: list with items `[A, B, C]`. -/
def exNewABC : Container := ⟨[], [], [⟨"L", [exItA, exItB, exItC]⟩]⟩

/-- C6 example, live side: one matched item with cache token "a". -/
def exLiveTok : Container := ⟨[], [], [⟨"L", [⟨1, "k", some "a", exCa, false⟩]⟩]⟩

/-- C6 example, new side: same item key, no cache token, new content. -/
def exNewNoTok : Container := ⟨[], [], [⟨"L", [⟨2, "k", none, exCb, false⟩]⟩]⟩

/-- C7 witness: a container with all three marker kinds. -/
def exMixed : Container :=
  ⟨[⟨"x", some "t", exCa⟩, ⟨"y", none, exCb⟩],
   [⟨"a", [("class", "c"), ("data-merge-attributes", "a")]⟩],
   [⟨"L", [exItA, exItC]⟩]⟩

/-- C4 witness: a fragment whose content marker has no live counterpart. -/
def exOrphan : Container := ⟨[⟨"zz", none, exCa⟩], [], []⟩

def exEmpty : Container := ⟨[], [], []⟩

/-- C9 example, new side: item `B` (id 9) has no element child. -/
def exNewNoChild : Container := ⟨[], [], [⟨"L", [exItA, ⟨9, "B", none, ⟨false, [], "nb"⟩, false⟩]⟩]⟩

/-- C9 example, live side: list with the single item `A`. -/
def exLiveA : Container := ⟨[], [], [⟨"L", [exItA]⟩]⟩

/-- A mid-loop state of the insertion/update pass: live items `[A, C]`
with both tracked. -/
def exState : LState := ⟨[exItA, exItC], [0, 2], []⟩

/-! ## Generic lemmas about keyed lookup and first-match update -/

theorem findByKey_cons [BEq κ] (keyf : α → κ) (k : κ) (a : α) (l : List α) :
    findByKey keyf k (a :: l) =
      if keyf a == k then some a else findByKey keyf k l := by
  by_cases h : keyf a == k
  · simp [findByKey, List.find?_cons_of_pos, h]
  · simp only [Bool.not_eq_true] at h
    simp [findByKey, List.find?_cons_of_neg, h]

theorem updateFirst_cons (p : α → Bool) (f : α → α) (a : α) (l : List α) :
    updateFirst p f (a :: l) =
      if p a then f a :: l else a :: updateFirst p f l := rfl

/-- Looking up the updated key after a first-match update, provided the
update preserves the key. -/
theorem findByKey_updateByKey_self [BEq κ] [LawfulBEq κ] (keyf : α → κ) (k : κ)
    (f : α → α) (l : List α) (hf : ∀ a, keyf (f a) = keyf a) :
    findByKey keyf k (updateByKey keyf k f l) = (findByKey keyf k l).map f := by
  induction l with
  | nil => rfl
  | cons a l ih =>
      by_cases h : keyf a == k
      · simp [updateByKey, updateFirst_cons, h, findByKey_cons, hf]
      · simp only [Bool.not_eq_true] at h
        simpa [updateByKey, updateFirst_cons, h, findByKey_cons] using ih

/-- Looking up a different key after a first-match update, provided the
update preserves the key. -/
theorem findByKey_updateByKey_ne [BEq κ] [LawfulBEq κ] (keyf : α → κ) (k k' : κ)
    (f : α → α) (l : List α) (hf : ∀ a, keyf (f a) = keyf a) (hne : k' ≠ k) :
    findByKey keyf k' (updateByKey keyf k f l) = findByKey keyf k' l := by
  induction l with
  | nil => rfl
  | cons a l ih =>
      simp only [updateByKey] at ih ⊢
      cases h : (keyf a == k) with
      | true =>
          have hk : keyf a = k := eq_of_beq h
          have h' : (keyf a == k') = false := by
            apply beq_eq_false_iff_ne.mpr
            rw [hk]
            exact fun e => hne e.symm
          have h'' : (keyf (f a) == k') = false := by rw [hf]; exact h'
          simp [updateFirst_cons, h, findByKey_cons, h', h'']
      | false =>
          simp only [updateFirst_cons, h, if_false, Bool.false_eq_true]
          rw [findByKey_cons, findByKey_cons]
          cases h2 : (keyf a == k') <;> simp [h2, ih]

/-- A first-match update preserves the list of keys, provided the
update preserves the key. -/
theorem map_keyf_updateByKey [BEq κ] (keyf : α → κ) (k : κ)
    (f : α → α) (l : List α) (hf : ∀ a, keyf (f a) = keyf a) :
    (updateByKey keyf k f l).map keyf = l.map keyf := by
  induction l with
  | nil => rfl
  | cons a l ih =>
      by_cases h : keyf a == k
      · simp [updateByKey, updateFirst_cons, h, hf]
      · simp only [Bool.not_eq_true] at h
        simpa [updateByKey, updateFirst_cons, h] using ih

theorem findByKey_eq_none_iff [BEq κ] [LawfulBEq κ] (keyf : α → κ) (k : κ) (l : List α) :
    findByKey keyf k l = none ↔ ∀ a ∈ l, keyf a ≠ k := by
  simp [findByKey, List.find?_eq_none]

/-- With unique keys, looking up a member's key returns that member. -/
theorem findByKey_mem_nodup [BEq κ] [LawfulBEq κ] (keyf : α → κ) (l : List α) (a : α)
    (hnd : (l.map keyf).Nodup) (ha : a ∈ l) :
    findByKey keyf (keyf a) l = some a := by
  induction l with
  | nil => exact absurd ha (List.not_mem_nil a)
  | cons b l ih =>
      rcases List.mem_cons.mp ha with rfl | ha'
      · simp [findByKey_cons]
      · have hb : keyf b ≠ keyf a := by
          intro e
          have : keyf a ∈ l.map keyf := List.mem_map_of_mem keyf ha'
          rw [← e] at this
          exact (List.nodup_cons.mp hnd).1 this
        have hbeq : (keyf b == keyf a) = false := beq_eq_false_iff_ne.mpr hb
        rw [findByKey_cons, hbeq]
        simp only [if_false, Bool.false_eq_true]
        exact ih (List.nodup_cons.mp hnd).2 ha'

/-- A first-match update whose function fixes every matching element is
the identity. -/
theorem updateFirst_eq_self (p : α → Bool) (f : α → α) (l : List α)
    (hfix : ∀ a ∈ l, p a = true → f a = a) :
    updateFirst p f l = l := by
  induction l with
  | nil => rfl
  | cons a l ih =>
      by_cases h : p a
      · simp [updateFirst_cons, h, hfix a (List.mem_cons_self a l) h]
      · simp only [Bool.not_eq_true] at h
        simp [updateFirst_cons, h]
        exact ih (fun a ha hp => hfix a (List.mem_cons_of_mem _ ha) hp)

/-! ## Content pass lemmas -/

theorem contentApply_key (n t : CNode) : (contentApply n t).key = t.key := by
  unfold contentApply
  by_cases h : (jsTruthy n.cache || jsTruthy t.cache) = true <;> simp [h]

theorem contentApply_content (n t : CNode) : (contentApply n t).content = n.content := by
  unfold contentApply
  by_cases h : (jsTruthy n.cache || jsTruthy t.cache) = true <;> simp [h]

theorem mergeContentOne_found (live : List CNode) (n t : CNode)
    (ht : findByKey CNode.key n.key live = some t) :
    mergeContentOne live n =
      .ok (if contentReplaceCond n t then updateByKey CNode.key n.key (contentApply n) live
           else live) := by
  unfold mergeContentOne
  rw [ht]
  by_cases h : contentReplaceCond n t = true <;> simp [h]

theorem mergeContentOne_frame (live live' : List CNode) (n : CNode) (k : String)
    (hk : k ≠ n.key) (h : mergeContentOne live n = .ok live') :
    findByKey CNode.key k live' = findByKey CNode.key k live := by
  cases hf : findByKey CNode.key n.key live with
  | none => unfold mergeContentOne at h; rw [hf] at h; simp at h
  | some t =>
      have hfound := mergeContentOne_found live n t hf
      rw [h] at hfound
      simp only [Except.ok.injEq] at hfound
      cases hc : contentReplaceCond n t
      · rw [hfound, hc]
        simp
      · rw [hfound, hc, if_pos rfl]
        exact findByKey_updateByKey_ne CNode.key n.key k (contentApply n) live
          (fun a => contentApply_key n a) hk

theorem mergeContentOne_keys (live mid : List CNode) (n : CNode)
    (h : mergeContentOne live n = .ok mid) :
    mid.map CNode.key = live.map CNode.key := by
  cases hf : findByKey CNode.key n.key live with
  | none => unfold mergeContentOne at h; rw [hf] at h; simp at h
  | some t =>
      have hfound := mergeContentOne_found live n t hf
      rw [h] at hfound
      simp only [Except.ok.injEq] at hfound
      cases hc : contentReplaceCond n t
      · rw [hfound, hc]
        simp
      · rw [hfound, hc, if_pos rfl]
        exact map_keyf_updateByKey CNode.key n.key (contentApply n) live
          (fun a => contentApply_key n a)

theorem mergeContentPass_cons_ok (n : CNode) (news live : List CNode) (live' : List CNode)
    (h : mergeContentPass (n :: news) live = .ok live') :
    ∃ mid, mergeContentOne live n = .ok mid ∧ mergeContentPass news mid = .ok live' := by
  rw [mergeContentPass, List.foldlM_cons] at h
  cases hs : mergeContentOne live n with
  | error e => rw [hs] at h; simp [Bind.bind, Except.bind] at h
  | ok mid =>
      rw [hs] at h
      simp only [Bind.bind, Except.bind] at h
      exact ⟨mid, rfl, h⟩

theorem mergeContentPass_frame (news : List CNode) :
    ∀ (live live' : List CNode) (k : String), (∀ m ∈ news, m.key ≠ k) →
      mergeContentPass news live = .ok live' →
      findByKey CNode.key k live' = findByKey CNode.key k live := by
  induction news with
  | nil =>
      intro live live' k _ hp
      rw [mergeContentPass, List.foldlM_nil] at hp
      simp only [pure, Except.pure] at hp
      simp at hp
      rw [hp]
  | cons m rest ih =>
      intro live live' k hnk hp
      obtain ⟨mid, hm, hrest⟩ := mergeContentPass_cons_ok m rest live live' hp
      have h1 := mergeContentOne_frame live mid m k
        (fun e => hnk m (List.mem_cons_self m rest) e.symm) hm
      have h2 := ih mid live' k (fun x hx => hnk x (List.mem_cons_of_mem m hx)) hrest
      rw [h2, h1]

theorem mergeContentPass_tracks (news : List CNode) :
    ∀ (live live' : List CNode) (n t : CNode), (news.map CNode.key).Nodup → n ∈ news →
      findByKey CNode.key n.key live = some t →
      mergeContentPass news live = .ok live' →
      findByKey CNode.key n.key live' =
        some (if contentReplaceCond n t then contentApply n t else t) := by
  induction news with
  | nil => intro live live' n t _ hn; exact absurd hn (List.not_mem_nil n)
  | cons m rest ih =>
      intro live live' n t hnd hn ht hp
      obtain ⟨mid, hm, hrest⟩ := mergeContentPass_cons_ok m rest live live' hp
      by_cases hkey : m.key = n.key
      · have hmn : m = n := by
          rcases List.mem_cons.mp hn with h | hn'
          · exact h.symm
          · exfalso
            have hmem : n.key ∈ rest.map CNode.key := List.mem_map_of_mem _ hn'
            rw [← hkey] at hmem
            exact (List.nodup_cons.mp hnd).1 hmem
        subst hmn
        have hfound := mergeContentOne_found live m t ht
        rw [hm] at hfound
        have hmid : mid =
            (if contentReplaceCond m t then
               updateByKey CNode.key m.key (contentApply m) live else live) := by
          cases hfound; rfl
        have hrestkeys : ∀ x ∈ rest, x.key ≠ m.key := by
          intro x hx e
          have hmem : m.key ∈ rest.map CNode.key := by
            rw [← e]; exact List.mem_map_of_mem _ hx
          exact (List.nodup_cons.mp hnd).1 hmem
        rw [mergeContentPass_frame rest mid live' m.key hrestkeys hrest, hmid]
        cases hc : contentReplaceCond m t
        · simp only [hc, Bool.false_eq_true, if_false]
          exact ht
        · simp only [hc, if_true]
          rw [findByKey_updateByKey_self CNode.key m.key (contentApply m) live
            (fun a => contentApply_key m a), ht]
          rfl
      · have hn' : n ∈ rest := by
          rcases List.mem_cons.mp hn with h | h
          · exact absurd (by rw [h] : m.key = n.key) hkey
          · exact h
        have ht' : findByKey CNode.key n.key mid = some t := by
          rw [mergeContentOne_frame live mid m n.key (fun e => hkey e.symm) hm]
          exact ht
        exact ih mid live' n t (List.nodup_cons.mp hnd).2 hn' ht' hrest

theorem mergeContentPass_fails (news : List CNode) :
    ∀ (live : List CNode) (n : CNode), n ∈ news →
      findByKey CNode.key n.key live = none →
      mergeContentPass news live = .error () := by
  induction news with
  | nil => intro live n hn; exact absurd hn (List.not_mem_nil n)
  | cons m rest ih =>
      intro live n hn hnone
      rw [mergeContentPass, List.foldlM_cons]
      cases hs : mergeContentOne live m with
      | error e => cases e; simp [Bind.bind, Except.bind]
      | ok mid =>
          simp only [Bind.bind, Except.bind]
          have hn' : n ∈ rest := by
            rcases List.mem_cons.mp hn with h | h
            · exfalso
              unfold mergeContentOne at hs
              rw [h] at hnone
              rw [hnone] at hs
              simp at hs
            · exact h
          have hkeys := mergeContentOne_keys live mid m hs
          have hnone' : findByKey CNode.key n.key mid = none := by
            rw [findByKey_eq_none_iff] at hnone ⊢
            intro a ha
            have hmem : a.key ∈ live.map CNode.key := by
              rw [← hkeys]
              exact List.mem_map_of_mem _ ha
            obtain ⟨b, hb, hbe⟩ := List.mem_map.mp hmem
            rw [← hbe]
            exact hnone b hb
          exact ih mid n hn' hnone'

/-! ## Claim C1 -/

/-- C1: for every content-marked node of the new fragment whose key has a
live counterpart, the merge replaces the live node's inner content with
the new node's inner content exactly when either side lacks a (truthy)
cache token or the two tokens differ; when both tokens are present and
equal, the live node is left completely unchanged even if the two
contents differ.  The first conjunct locates the live counterpart after
the merge: it is the replaced-and-restamped node when the condition
holds and the untouched original node otherwise; the remaining
conjuncts unfold what replacement and the condition mean. -/
theorem mergeContent_replace_iff_cache_change
    (news live live' : List CNode) (n t : CNode)
    (hnd : (news.map CNode.key).Nodup) (hn : n ∈ news)
    (ht : findByKey CNode.key n.key live = some t)
    (hp : mergeContentPass news live = .ok live') :
    findByKey CNode.key n.key live' =
      some (if contentReplaceCond n t then contentApply n t else t) ∧
    (contentApply n t).content = n.content ∧
    (contentReplaceCond n t = true ↔
      jsTruthy n.cache = false ∨ jsTruthy t.cache = false ∨ n.cache ≠ t.cache) := by
  refine ⟨mergeContentPass_tracks news live live' n t hnd hn ht hp,
    contentApply_content n t, ?_⟩
  simp [contentReplaceCond, Bool.or_eq_true, Bool.not_eq_true', bne_iff_ne, or_assoc]

/-- Witness for C1 at a concrete input: one content marker, both sides
carrying distinct truthy tokens, so the content is replaced. -/
theorem mergeContent_replace_iff_cache_change_witness :
    findByKey CNode.key "x" [⟨"x", some "t1", exCa⟩] =
      some (if contentReplaceCond ⟨"x", some "t1", exCa⟩ ⟨"x", some "t2", exCb⟩ then
              contentApply ⟨"x", some "t1", exCa⟩ ⟨"x", some "t2", exCb⟩
            else ⟨"x", some "t2", exCb⟩) ∧
    (contentApply ⟨"x", some "t1", exCa⟩ ⟨"x", some "t2", exCb⟩).content =
      (⟨"x", some "t1", exCa⟩ : CNode).content ∧
    (contentReplaceCond ⟨"x", some "t1", exCa⟩ ⟨"x", some "t2", exCb⟩ = true ↔
      jsTruthy (⟨"x", some "t1", exCa⟩ : CNode).cache = false ∨
      jsTruthy (⟨"x", some "t2", exCb⟩ : CNode).cache = false ∨
      (⟨"x", some "t1", exCa⟩ : CNode).cache ≠ (⟨"x", some "t2", exCb⟩ : CNode).cache) :=
  mergeContent_replace_iff_cache_change
    [⟨"x", some "t1", exCa⟩] [⟨"x", some "t2", exCb⟩] [⟨"x", some "t1", exCa⟩]
    ⟨"x", some "t1", exCa⟩ ⟨"x", some "t2", exCb⟩
    (by decide) (by decide) (by rfl) (by rfl)

/-! ## Claim C4 -/

/-- C4: the merge body runs inside a single top-level try/catch: the
call always returns a `MergeOutcome` (never propagates an exception),
performs exactly one reload when the body raised and none otherwise,
and — as in the claim's example — a content marker in the fragment with
no live counterpart makes the whole merge take the reload path. -/
theorem mergeNodes_catches_and_reloads (newC live : Container) :
    (mergeNodes newC live).result = (mergeBody newC live).toOption ∧
    (mergeNodes newC live).reloads = (if (mergeBody newC live).isOk then 0 else 1) ∧
    (∀ n ∈ newC.cnodes, findByKey CNode.key n.key live.cnodes = none →
      (mergeNodes newC live).reloads = 1 ∧ (mergeNodes newC live).result = none) := by
  refine ⟨?_, ?_, ?_⟩
  · unfold mergeNodes
    cases h : mergeBody newC live <;> simp [Except.toOption, h]
  · unfold mergeNodes
    cases h : mergeBody newC live <;> simp [Except.isOk, Except.toBool, h]
  · intro n hn hnone
    have hfail := mergeContentPass_fails newC.cnodes live.cnodes n hn hnone
    have hbody : mergeBody newC live = .error () := by
      unfold mergeBody
      rw [hfail]
      simp [Bind.bind, Except.bind]
    unfold mergeNodes
    rw [hbody]
    exact ⟨rfl, rfl⟩

/-- Witness for C4: a fragment whose only content marker has no live
counterpart triggers exactly one reload and yields no result. -/
theorem mergeNodes_catches_and_reloads_witness :
    (mergeNodes exOrphan exEmpty).reloads = 1 ∧
    (mergeNodes exOrphan exEmpty).result = none :=
  (mergeNodes_catches_and_reloads exOrphan exEmpty).2.2
    ⟨"zz", none, exCa⟩ (by decide) (by rfl)

/-! ## Attribute pass lemmas -/

theorem getAttr_cons (a : String × String) (l : List (String × String)) (k : String) :
    getAttr (a :: l) k = if a.1 == k then some a.2 else getAttr l k := by
  by_cases h : (a.1 == k) = true
  · simp [getAttr, List.find?_cons_of_pos, h]
  · simp only [Bool.not_eq_true] at h
    simp [getAttr, List.find?_cons_of_neg, h]

theorem getAttr_map_setkey_ne (l : List (String × String)) (k k' v : String)
    (hne : k' ≠ k) :
    getAttr (l.map (fun p => if p.1 == k then (k, v) else p)) k' = getAttr l k' := by
  induction l with
  | nil => rfl
  | cons a l ih =>
      rw [List.map_cons]
      cases ha : (a.1 == k) with
      | true =>
          rw [if_pos rfl, getAttr_cons, getAttr_cons]
          have hik : a.1 = k := eq_of_beq ha
          have hk' : (k == k') = false := beq_eq_false_iff_ne.mpr fun e => hne e.symm
          have ha' : (a.1 == k') = false := by rw [hik]; exact hk'
          rw [hk', ha']
          simpa using ih
      | false =>
          rw [if_neg Bool.false_ne_true, getAttr_cons, getAttr_cons]
          cases h2 : (a.1 == k')
          · rw [if_neg Bool.false_ne_true, if_neg Bool.false_ne_true]
            exact ih
          · rw [if_pos rfl, if_pos rfl]

theorem getAttr_setAttribute_self (l : List (String × String)) (k v : String) :
    getAttr (setAttribute l k v) k = some v := by
  unfold setAttribute
  by_cases h : (l.any (fun p => p.1 == k)) = true
  · rw [if_pos h]
    induction l with
    | nil => simp at h
    | cons a l ih =>
        rw [List.map_cons]
        cases ha : (a.1 == k) with
        | true =>
            rw [if_pos rfl, getAttr_cons]
            simp
        | false =>
            rw [if_neg Bool.false_ne_true, getAttr_cons, ha]
            simp only [Bool.false_eq_true, if_false]
            apply ih
            simpa [List.any_cons, ha] using h
  · rw [if_neg h]
    induction l with
    | nil =>
        rw [List.nil_append, getAttr_cons]
        simp
    | cons a l ih =>
        have ha : (a.1 == k) = false := by
          by_contra hc
          simp only [Bool.not_eq_false] at hc
          exact h (by simp [List.any_cons, hc])
        rw [List.cons_append, getAttr_cons, ha]
        simp only [Bool.false_eq_true, if_false]
        apply ih
        intro hc
        exact h (by simp [List.any_cons, hc])

theorem getAttr_setAttribute_ne (l : List (String × String)) (k k' v : String)
    (hne : k' ≠ k) :
    getAttr (setAttribute l k v) k' = getAttr l k' := by
  unfold setAttribute
  by_cases h : (l.any (fun p => p.1 == k)) = true
  · rw [if_pos h]
    exact getAttr_map_setkey_ne l k k' v hne
  · rw [if_neg h]
    induction l with
    | nil =>
        rw [List.nil_append, getAttr_cons]
        have hk' : (k == k') = false := beq_eq_false_iff_ne.mpr fun e => hne e.symm
        rw [hk']
        simp [getAttr]
    | cons a l ih =>
        rw [List.cons_append, getAttr_cons, getAttr_cons]
        cases h2 : (a.1 == k')
        · simp only [Bool.false_eq_true, if_false]
          apply ih
          intro hc
          exact h (by simp [List.any_cons]; right; simpa using hc)
        · simp

theorem syncAttrs_cons (target : List (String × String)) (p : String × String)
    (rest : List (String × String)) :
    syncAttrs target (p :: rest) = syncAttrs (setAttribute target p.1 p.2) rest := rfl

theorem getAttr_syncAttrs_not_mem (news : List (String × String)) :
    ∀ (target : List (String × String)) (k : String), (∀ p ∈ news, p.1 ≠ k) →
      getAttr (syncAttrs target news) k = getAttr target k := by
  induction news with
  | nil => intro target k _; rfl
  | cons q rest ih =>
      intro target k h
      rw [syncAttrs_cons, ih (setAttribute target q.1 q.2) k
        (fun p hp => h p (List.mem_cons_of_mem q hp))]
      exact getAttr_setAttribute_ne target q.1 k q.2
        (fun e => h q (List.mem_cons_self q rest) e.symm)

theorem getAttr_syncAttrs_mem (news : List (String × String))
    (hnd : (news.map Prod.fst).Nodup) :
    ∀ (target : List (String × String)), ∀ p ∈ news,
      getAttr (syncAttrs target news) p.1 = some p.2 := by
  induction news with
  | nil => intro target p hp; exact absurd hp (List.not_mem_nil p)
  | cons q rest ih =>
      intro target p hp
      rw [syncAttrs_cons]
      rcases List.mem_cons.mp hp with h | hp'
      · subst h
        rw [getAttr_syncAttrs_not_mem rest (setAttribute target p.1 p.2) p.1 ?_]
        · exact getAttr_setAttribute_self target p.1 p.2
        · intro r hr e
          have hmem : p.1 ∈ rest.map Prod.fst := by
            rw [← e]
            exact List.mem_map_of_mem _ hr
          exact (List.nodup_cons.mp hnd).1 hmem
      · exact ih (List.nodup_cons.mp hnd).2 (setAttribute target q.1 q.2) p hp'

theorem attrApply_key (n t : ANode) : (attrApply n t).key = t.key := rfl

theorem mergeAttrOne_found (live : List ANode) (n t : ANode)
    (ht : findByKey ANode.key n.key live = some t) :
    mergeAttrOne live n = .ok (updateByKey ANode.key n.key (attrApply n) live) := by
  unfold mergeAttrOne
  rw [ht]
  rfl

theorem mergeAttrOne_frame (live live' : List ANode) (n : ANode) (k : String)
    (hk : k ≠ n.key) (h : mergeAttrOne live n = .ok live') :
    findByKey ANode.key k live' = findByKey ANode.key k live := by
  cases hf : findByKey ANode.key n.key live with
  | none =>
      unfold mergeAttrOne at h
      rw [hf] at h
      cases he : n.attrs.isEmpty <;> rw [he] at h <;> simp at h
      rw [← h]
  | some t =>
      have hfound := mergeAttrOne_found live n t hf
      rw [h] at hfound
      simp only [Except.ok.injEq] at hfound
      rw [hfound]
      exact findByKey_updateByKey_ne ANode.key n.key k (attrApply n) live
        (fun a => attrApply_key n a) hk

theorem mergeAttrPass_cons_ok (n : ANode) (news live : List ANode) (live' : List ANode)
    (h : mergeAttrPass (n :: news) live = .ok live') :
    ∃ mid, mergeAttrOne live n = .ok mid ∧ mergeAttrPass news mid = .ok live' := by
  rw [mergeAttrPass, List.foldlM_cons] at h
  cases hs : mergeAttrOne live n with
  | error e => rw [hs] at h; simp [Bind.bind, Except.bind] at h
  | ok mid =>
      rw [hs] at h
      simp only [Bind.bind, Except.bind] at h
      exact ⟨mid, rfl, h⟩

theorem mergeAttrPass_frame (news : List ANode) :
    ∀ (live live' : List ANode) (k : String), (∀ m ∈ news, m.key ≠ k) →
      mergeAttrPass news live = .ok live' →
      findByKey ANode.key k live' = findByKey ANode.key k live := by
  induction news with
  | nil =>
      intro live live' k _ hp
      rw [mergeAttrPass, List.foldlM_nil] at hp
      simp only [pure, Except.pure] at hp
      simp at hp
      rw [hp]
  | cons m rest ih =>
      intro live live' k hnk hp
      obtain ⟨mid, hm, hrest⟩ := mergeAttrPass_cons_ok m rest live live' hp
      have h1 := mergeAttrOne_frame live mid m k
        (fun e => hnk m (List.mem_cons_self m rest) e.symm) hm
      have h2 := ih mid live' k (fun x hx => hnk x (List.mem_cons_of_mem m hx)) hrest
      rw [h2, h1]

theorem mergeAttrPass_tracks (news : List ANode) :
    ∀ (live live' : List ANode) (n t : ANode), (news.map ANode.key).Nodup → n ∈ news →
      findByKey ANode.key n.key live = some t →
      mergeAttrPass news live = .ok live' →
      findByKey ANode.key n.key live' = some (attrApply n t) := by
  induction news with
  | nil => intro live live' n t _ hn; exact absurd hn (List.not_mem_nil n)
  | cons m rest ih =>
      intro live live' n t hnd hn ht hp
      obtain ⟨mid, hm, hrest⟩ := mergeAttrPass_cons_ok m rest live live' hp
      by_cases hkey : m.key = n.key
      · have hmn : m = n := by
          rcases List.mem_cons.mp hn with h | hn'
          · exact h.symm
          · exfalso
            have hmem : n.key ∈ rest.map ANode.key := List.mem_map_of_mem _ hn'
            rw [← hkey] at hmem
            exact (List.nodup_cons.mp hnd).1 hmem
        subst hmn
        have hfound := mergeAttrOne_found live m t ht
        rw [hm] at hfound
        simp only [Except.ok.injEq] at hfound
        have hrestkeys : ∀ x ∈ rest, x.key ≠ m.key := by
          intro x hx e
          have hmem : m.key ∈ rest.map ANode.key := by
            rw [← e]
            exact List.mem_map_of_mem _ hx
          exact (List.nodup_cons.mp hnd).1 hmem
        rw [mergeAttrPass_frame rest mid live' m.key hrestkeys hrest, hfound,
          findByKey_updateByKey_self ANode.key m.key (attrApply m) live
            (fun a => attrApply_key m a), ht]
        rfl
      · have hn' : n ∈ rest := by
          rcases List.mem_cons.mp hn with h | h
          · exact absurd (by rw [h] : m.key = n.key) hkey
          · exact h
        have ht' : findByKey ANode.key n.key mid = some t := by
          rw [mergeAttrOne_frame live mid m n.key (fun e => hkey e.symm) hm]
          exact ht
        exact ih mid live' n t (List.nodup_cons.mp hnd).2 hn' ht' hrest

/-! ## Claim C5 -/

/-- C5: for every attribute-marked node of the new fragment whose key
has a live counterpart, the attribute pass sets on the live node every
name/value pair of the new node (overwriting and adding), and every
attribute of the live node whose name does not occur on the new node
keeps its prior value — no attribute is removed. -/
theorem mergeAttr_additive_sync (news live live' : List ANode) (n t : ANode)
    (hnd : (news.map ANode.key).Nodup) (hn : n ∈ news)
    (hattr : (n.attrs.map Prod.fst).Nodup)
    (ht : findByKey ANode.key n.key live = some t)
    (hp : mergeAttrPass news live = .ok live') :
    findByKey ANode.key n.key live' = some (attrApply n t) ∧
    (∀ p ∈ n.attrs, getAttr (attrApply n t).attrs p.1 = some p.2) ∧
    (∀ k, (∀ p ∈ n.attrs, p.1 ≠ k) →
      getAttr (attrApply n t).attrs k = getAttr t.attrs k) := by
  refine ⟨mergeAttrPass_tracks news live live' n t hnd hn ht hp, ?_, ?_⟩
  · exact fun p hp' => getAttr_syncAttrs_mem n.attrs hattr t.attrs p hp'
  · exact fun k hk => getAttr_syncAttrs_not_mem n.attrs t.attrs k hk

/-- Witness for C5: the new node overwrites `class`, adds `hidden`, and
the live-only attribute `style` keeps its prior value. -/
theorem mergeAttr_additive_sync_witness :
    findByKey ANode.key "a"
        [⟨"a", syncAttrs [("class", "old"), ("style", "s0")]
            [("class", "new"), ("hidden", "")]⟩] =
      some (attrApply ⟨"a", [("class", "new"), ("hidden", "")]⟩
        ⟨"a", [("class", "old"), ("style", "s0")]⟩) ∧
    (∀ p ∈ [("class", "new"), ("hidden", "")],
      getAttr (attrApply (⟨"a", [("class", "new"), ("hidden", "")]⟩ : ANode)
        ⟨"a", [("class", "old"), ("style", "s0")]⟩).attrs p.1 = some p.2) ∧
    (∀ k, (∀ p ∈ [("class", "new"), ("hidden", "")], p.1 ≠ k) →
      getAttr (attrApply (⟨"a", [("class", "new"), ("hidden", "")]⟩ : ANode)
        ⟨"a", [("class", "old"), ("style", "s0")]⟩).attrs k =
      getAttr [("class", "old"), ("style", "s0")] k) :=
  mergeAttr_additive_sync
    [⟨"a", [("class", "new"), ("hidden", "")]⟩]
    [⟨"a", [("class", "old"), ("style", "s0")]⟩]
    [⟨"a", syncAttrs [("class", "old"), ("style", "s0")]
        [("class", "new"), ("hidden", "")]⟩]
    ⟨"a", [("class", "new"), ("hidden", "")]⟩
    ⟨"a", [("class", "old"), ("style", "s0")]⟩
    (by decide) (by decide) (by decide) (by rfl) (by rfl)

/-! ## List pass lemmas -/

theorem hideAndRemoveSync_id (it : LItem) : (hideAndRemoveSync it).id = it.id := rfl

theorem hideAndRemoveSync_key (it : LItem) : (hideAndRemoveSync it).key = it.key := rfl

theorem hideAndRemoveSync_removing (it : LItem) :
    (hideAndRemoveSync it).removing = true := rfl

theorem removePass_fst (news items : List LItem) :
    (removePass news items).1 =
      items.map (fun it =>
        if news.any (fun n => n.key == it.key) then it else hideAndRemoveSync it) := by
  induction items with
  | nil => rfl
  | cons it rest ih =>
      rw [removePass, List.map_cons]
      cases h : news.any (fun n => n.key == it.key) <;> simp [h, ih]

theorem removePass_snd (news items : List LItem) :
    (removePass news items).2 =
      (items.filter (fun it => !news.any (fun n => n.key == it.key))).map
        (fun it => MEv.hideAndRemove it.id) := by
  induction items with
  | nil => rfl
  | cons it rest ih =>
      rw [removePass, List.filter_cons]
      cases h : news.any (fun n => n.key == it.key) <;> simp [h, ih]

theorem removePass_ids (news items : List LItem) :
    (removePass news items).1.map LItem.id = items.map LItem.id := by
  rw [removePass_fst, List.map_map]
  apply List.map_congr_left
  intro it _
  show (if news.any (fun n => n.key == it.key) then it else hideAndRemoveSync it).id = it.id
  cases h : news.any (fun n => n.key == it.key)
  · rw [if_neg Bool.false_ne_true]
    exact hideAndRemoveSync_id it
  · rw [if_pos rfl]

theorem not_mem_trackedOf_of_removing (items : List LItem) (it : LItem)
    (hid : (items.map LItem.id).Nodup) (hmem : it ∈ items) (hrem : it.removing = true) :
    it.id ∉ trackedOf items := by
  intro hin
  obtain ⟨x, hx, hxe⟩ := List.mem_map.mp hin
  obtain ⟨hx', hxr⟩ := List.mem_filter.mp hx
  have hxe' : x = it := List.inj_on_of_nodup_map hid hx' hmem hxe
  rw [hxe', hrem] at hxr
  simp at hxr

theorem getItem_mem_nodup (items : List LItem) (it : LItem)
    (hid : (items.map LItem.id).Nodup) (hmem : it ∈ items) :
    getItem items it.id = some it :=
  findByKey_mem_nodup LItem.id items it hid hmem

/-- Looking up a key through the tracking array equals a direct first
match on the carried sub-list, provided node ids are unique. -/
theorem trackedMatch_eq_find (store : List LItem)
    (hid : (store.map LItem.id).Nodup) :
    ∀ (sub : List LItem) (k : String), (∀ x ∈ sub, x ∈ store) →
      trackedMatch store (sub.map LItem.id) k = sub.find? (fun it => it.key == k) := by
  intro sub
  induction sub with
  | nil => intro k _; rfl
  | cons x xs ih =>
      intro k hsub
      have hx : getItem store x.id = some x :=
        getItem_mem_nodup store x hid (hsub x (List.mem_cons_self x xs))
      have hfx : (match getItem store x.id with
          | some it => if it.key == k then some it else none
          | none => none) = (if x.key == k then some x else none) := by
        rw [hx]
      rw [List.map_cons, trackedMatch, List.findSome?_cons]
      rw [hfx]
      cases hk : (x.key == k) with
      | true =>
          rw [if_pos rfl]
          have hfind : List.find? (fun it => it.key == k) (x :: xs) = some x :=
            List.find?_cons_of_pos xs hk
          exact hfind.symm
      | false =>
          rw [if_neg Bool.false_ne_true]
          have hfind : List.find? (fun it => it.key == k) (x :: xs) =
              List.find? (fun it => it.key == k) xs :=
            List.find?_cons_of_neg xs (by simp [hk])
          rw [hfind]
          exact ih k (fun y hy => hsub y (List.mem_cons_of_mem x hy))

/-- Every match through the post-removal tracking array is a
non-removing member of the DOM order. -/
theorem trackedMatch_trackedOf_not_removing (items : List LItem)
    (hid : (items.map LItem.id).Nodup) (k : String) (m : LItem)
    (h : trackedMatch items (trackedOf items) k = some m) :
    m.removing = false ∧ m ∈ items ∧ m.key = k := by
  have hsub : ∀ x ∈ items.filter (fun it => !it.removing), x ∈ items :=
    fun x hx => (List.mem_filter.mp hx).1
  rw [trackedOf, trackedMatch_eq_find items hid _ k hsub] at h
  have hmem := List.mem_of_find?_eq_some h
  have hkey := List.find?_some h
  refine ⟨?_, (List.mem_filter.mp hmem).1, eq_of_beq hkey⟩
  have hr := (List.mem_filter.mp hmem).2
  simpa using hr

/-! ## Claim C3 -/

/-- C3: every old list item whose key matches no new item's key is
handed to the animated detach (`hideAndRemove` trigger emitted) and
stays in the DOM order — marked `merge-remove-item` — rather than
being deleted; the rebuilt tracking sequence excludes every item that
is undergoing removal (including ones already mid-removal before this
merge), so a tracked-array key match can never return an item that is
being removed. -/
theorem listDiff_removal_animated_and_excluded (news items : List LItem)
    (hid : (items.map LItem.id).Nodup) :
    ((removePass news items).1.length = items.length) ∧
    (∀ it ∈ items, (∀ n ∈ news, n.key ≠ it.key) →
      hideAndRemoveSync it ∈ (removePass news items).1 ∧
      MEv.hideAndRemove it.id ∈ (removePass news items).2 ∧
      (hideAndRemoveSync it).removing = true) ∧
    (∀ it ∈ (removePass news items).1, it.removing = true →
      it.id ∉ trackedOf (removePass news items).1) ∧
    (∀ k m, trackedMatch (removePass news items).1
        (trackedOf (removePass news items).1) k = some m → m.removing = false) := by
  have hids := removePass_ids news items
  have hid' : ((removePass news items).1.map LItem.id).Nodup := by
    rw [hids]; exact hid
  refine ⟨?_, ?_, ?_, ?_⟩
  · rw [removePass_fst, List.length_map]
  · intro it hmem hnk
    have hany : news.any (fun n => n.key == it.key) = false := by
      rw [List.any_eq_false]
      intro n hn
      exact fun hb => hnk n hn (eq_of_beq hb)
    refine ⟨?_, ?_, hideAndRemoveSync_removing it⟩
    · rw [removePass_fst]
      have heq : (fun x => if news.any (fun n => n.key == x.key) then x
          else hideAndRemoveSync x) it = hideAndRemoveSync it := by
        show (if news.any (fun n => n.key == it.key) then it
          else hideAndRemoveSync it) = hideAndRemoveSync it
        rw [hany, if_neg Bool.false_ne_true]
      rw [← heq]
      exact List.mem_map_of_mem _ hmem
    · rw [removePass_snd]
      have hf : it ∈ items.filter (fun x => !news.any (fun n => n.key == x.key)) :=
        List.mem_filter.mpr ⟨hmem, by rw [hany]; rfl⟩
      exact List.mem_map_of_mem _ hf
  · intro it hmem hrem
    exact not_mem_trackedOf_of_removing (removePass news items).1 it hid' hmem hrem
  · intro k m hm
    exact (trackedMatch_trackedOf_not_removing (removePass news items).1 hid' k m hm).1

/-- Witness for C3: removal of item `B` from `[A, B, C]` (new list
`[A, C]`). -/
theorem listDiff_removal_animated_and_excluded_witness :
    ((removePass [exItA, exItC] [exItA, exItB, exItC]).1.length =
      [exItA, exItB, exItC].length) ∧
    (hideAndRemoveSync exItB ∈ (removePass [exItA, exItC] [exItA, exItB, exItC]).1 ∧
      MEv.hideAndRemove exItB.id ∈ (removePass [exItA, exItC] [exItA, exItB, exItC]).2 ∧
      (hideAndRemoveSync exItB).removing = true) := by
  have h := listDiff_removal_animated_and_excluded [exItA, exItC]
    [exItA, exItB, exItC] (by decide)
  exact ⟨h.1, h.2.1 exItB (by decide) (by decide)⟩

/-! ## Claim C2 -/

/-- `insertAdjacentElement('beforebegin', n)` places the new node
immediately before the reference node in the DOM order. -/
theorem insertBeforeId_spec (n x : LItem) (pre post : List LItem)
    (hpre : ∀ y ∈ pre, y.id ≠ x.id) :
    insertBeforeId n (pre ++ x :: post) x.id = pre ++ n :: x :: post := by
  induction pre with
  | nil =>
      rw [List.nil_append, insertBeforeId]
      simp
  | cons y ys ih =>
      rw [List.cons_append, insertBeforeId]
      have hy : (y.id == x.id) = false :=
        beq_eq_false_iff_ne.mpr (hpre y (List.mem_cons_self y ys))
      rw [hy]
      simp only [Bool.false_eq_true, if_false, List.cons_append]
      rw [ih (fun z hz => hpre z (List.mem_cons_of_mem y hz))]

/-- C2: in the insertion/update loop, a new item at index `i` whose key
has no current tracked match is inserted at container start when
`i = 0`, at container end when `i` is at least the tracked length, and
immediately before the tracked item occupying position `i` otherwise;
the new item is then spliced into the tracking array at position `i`.
The second conjunct fixes the meaning of a `before` placement
("immediately before" in DOM order), and the third runs the claim's
example — old `[A, C]`, new `[A, B, C]` — ending with `B` revealed
immediately before `C` and final order `[A, B, C]`. -/
theorem listDiff_insert_placement :
    (∀ (st : LState) (i : Nat) (n : LItem),
      trackedMatch st.items st.tracked n.key = none →
      n.content.hasElemChild = true →
      insertUpdateStep st i n =
        .ok { items := applyInsert st.items
                (if i = 0 then .atStart
                 else if st.tracked.length ≤ i then .atEnd
                 else .before (st.tracked.getD i 0)) n,
              tracked := spliceAt st.tracked i n.id,
              evs := st.evs ++ [.insertAndReveal n.id
                (if i = 0 then .atStart
                 else if st.tracked.length ≤ i then .atEnd
                 else .before (st.tracked.getD i 0))] }) ∧
    (∀ (n x : LItem) (pre post : List LItem), (∀ y ∈ pre, y.id ≠ x.id) →
      applyInsert (pre ++ x :: post) (.before x.id) n = pre ++ n :: x :: post) ∧
    (mergeNodes exNewABC exLiveAC =
      { result := some (⟨[], [], [⟨"L", [exItA, exItB, exItC]⟩]⟩,
          [.insertAndReveal 3 (.before 2)]), reloads := 0 }) := by
  refine ⟨?_, ?_, by rfl⟩
  · intro st i n hmatch hchild
    unfold insertUpdateStep
    rw [hmatch]
    simp [hchild]
  · intro n x pre post hpre
    exact insertBeforeId_spec n x pre post hpre

/-- Witness for C2's general conjunct at a concrete mid-loop state:
inserting `B` at index 1 into tracked `[A, C]` places it before `C`
(the item at position 1) and splices it at position 1. -/
theorem listDiff_insert_placement_witness :
    trackedMatch exState.items exState.tracked exItB.key = none ∧
    exItB.content.hasElemChild = true ∧
    insertUpdateStep exState 1 exItB =
      .ok { items := applyInsert exState.items
              (if 1 = 0 then .atStart
               else if exState.tracked.length ≤ 1 then .atEnd
               else .before (exState.tracked.getD 1 0)) exItB,
            tracked := spliceAt exState.tracked 1 exItB.id,
            evs := exState.evs ++ [.insertAndReveal exItB.id
              (if 1 = 0 then .atStart
               else if exState.tracked.length ≤ 1 then .atEnd
               else .before (exState.tracked.getD 1 0))] } :=
  ⟨by rfl, by rfl, listDiff_insert_placement.1 exState 1 exItB (by rfl) (by rfl)⟩

/-! ## Claim C6 -/

/-- Counterexample to C6 as stated: live item with cache token "a",
matched new item with the same key, no token and different content.
The update replaces the content (first two conjuncts: the stored item
now carries the new content, which differs from the old one) but the
live item's token is NOT updated — it is still the pre-merge "a" even
though the new item carried no token, whereas the content-marker rule
(line 176) would have restamped it because the live side carried a
token. -/
theorem listDiff_restamp_counterexample :
    mergeNodes exNewNoTok exLiveTok =
      { result := some (⟨[], [], [⟨"L", [⟨1, "k", some "a", exCb, false⟩]⟩]⟩, []),
        reloads := 0 } ∧
    exCb ≠ exCa ∧
    (⟨1, "k", some "a", exCb, false⟩ : LItem).cache = some "a" ∧
    ((⟨2, "k", none, exCb, false⟩ : LItem).cache = none) ∧
    contentReplaceCond ⟨"k", none, exCb⟩ ⟨"k", some "a", exCa⟩ = true ∧
    (contentApply ⟨"k", none, exCb⟩ ⟨"k", some "a", exCa⟩).cache = some "undefined" :=
  ⟨by rfl, by decide, rfl, rfl, by rfl, by rfl⟩

/-- C6 (amended): the list differ replaces a matched item's content
under the same condition as the content pass, but restamps the cache
token only when the NEW item carries a truthy token; when the live
item has a token and the new item has none, the content is still
replaced (last conjunct: the replace condition holds) while the live
item's token is left unchanged. -/
theorem listDiff_restamp_only_new_token (st : LState) (i : Nat) (n m : LItem)
    (hm : trackedMatch st.items st.tracked n.key = some m) :
    insertUpdateStep st i n =
      .ok (if listReplaceCond n m then
            { st with items := updItem st.items m.id (listItemApply n) }
          else st) ∧
    (listItemApply n m).content = n.content ∧
    (jsTruthy n.cache = true → (listItemApply n m).cache = n.cache) ∧
    (jsTruthy n.cache = false → (listItemApply n m).cache = m.cache) ∧
    (jsTruthy n.cache = false → jsTruthy m.cache = true →
      listReplaceCond n m = true) := by
  refine ⟨?_, ?_, ?_, ?_, ?_⟩
  · unfold insertUpdateStep
    rw [hm]
    cases hc : listReplaceCond n m <;> simp [hc]
  · unfold listItemApply
    cases h : jsTruthy n.cache <;> simp [h]
  · intro h
    unfold listItemApply
    rw [h, if_pos rfl]
  · intro h
    unfold listItemApply
    rw [h, if_neg Bool.false_ne_true]
  · intro h1 _
    unfold listReplaceCond
    rw [h1]
    rfl

/-- Witness for the amended C6: the concrete update of the
counterexample input (live token "a", new item without token). -/
theorem listDiff_restamp_only_new_token_witness :
    insertUpdateStep ⟨[⟨1, "k", some "a", exCa, false⟩], [1], []⟩ 0
        ⟨2, "k", none, exCb, false⟩ =
      .ok (if listReplaceCond ⟨2, "k", none, exCb, false⟩ ⟨1, "k", some "a", exCa, false⟩ then
            { items := updItem [⟨1, "k", some "a", exCa, false⟩] 1
                (listItemApply ⟨2, "k", none, exCb, false⟩),
              tracked := [1], evs := [] }
          else ⟨[⟨1, "k", some "a", exCa, false⟩], [1], []⟩) ∧
    (listItemApply (⟨2, "k", none, exCb, false⟩ : LItem)
      ⟨1, "k", some "a", exCa, false⟩).cache = some "a" :=
  ⟨(listDiff_restamp_only_new_token ⟨[⟨1, "k", some "a", exCa, false⟩], [1], []⟩ 0
      ⟨2, "k", none, exCb, false⟩ ⟨1, "k", some "a", exCa, false⟩ (by rfl)).1,
   (listDiff_restamp_only_new_token ⟨[⟨1, "k", some "a", exCa, false⟩], [1], []⟩ 0
      ⟨2, "k", none, exCb, false⟩ ⟨1, "k", some "a", exCa, false⟩ (by rfl)).2.2.2.1 rfl⟩

/-! ## Claim C9 -/

/-- C9: `insertAndReveal` dereferences `el.firstElementChild`
unconditionally; inserting a new list item that has no element child
therefore throws inside the list differ, and the whole merge takes the
fatal reload path (second conjunct: concrete merge inserting such an
item reloads once and completes no insertion). -/
theorem insertReveal_no_elem_child_fatal :
    (∀ (st : LState) (i : Nat) (n : LItem),
      trackedMatch st.items st.tracked n.key = none →
      n.content.hasElemChild = false →
      insertUpdateStep st i n = .error ()) ∧
    mergeNodes exNewNoChild exLiveA = { result := none, reloads := 1 } := by
  constructor
  · intro st i n hmatch hchild
    unfold insertUpdateStep
    rw [hmatch]
    simp [hchild]
  · rfl

/-- Witness for C9's general conjunct: inserting the element-childless
item `⟨9, "B", …⟩` into the tracked state `[A]` raises. -/
theorem insertReveal_no_elem_child_fatal_witness :
    insertUpdateStep ⟨[exItA], [0], []⟩ 1 ⟨9, "B", none, ⟨false, [], "nb"⟩, false⟩ =
      .error () :=
  insertReveal_no_elem_child_fatal.1 ⟨[exItA], [0], []⟩ 1
    ⟨9, "B", none, ⟨false, [], "nb"⟩, false⟩ (by rfl) (by rfl)

/-! ## Claim C8 -/

/-- C8: when the fade/slide CSS custom properties are missing, the
parsed durations are `NaN`; both animation helpers still return (no
exception) and their nested timers degrade to zero-duration phases:
the detach sequence stays `disable, wrap, fade, slide, detach` with
every duration-driven delay collapsed to the initial 10 ms tick, and
the reveal sequence stays `insert, slide, fade, cleanup` with every
duration-driven delay collapsed to the initial delay. -/
theorem schedules_nan_degrade (d : Nat) :
    detachSchedule .nan .nan =
      [(0, .disableInputs), (0, .wrap), (10, .fade), (10, .slide), (10, .detach)] ∧
    revealSchedule true d .nan .nan =
      .ok [(0, .insert), (if d = 0 then 10 else d, .slide),
           (if d = 0 then 10 else d, .fade), (if d = 0 then 10 else d, .cleanup)] ∧
    (detachSchedule .nan .nan).map Prod.snd =
      [.disableInputs, .wrap, .fade, .slide, .detach] := by
  refine ⟨rfl, ?_, rfl⟩
  rfl

/-- Witness for C8 at the concrete initial delay the list differ uses
(500 ms). -/
theorem schedules_nan_degrade_witness :
    detachSchedule .nan .nan =
      [(0, .disableInputs), (0, .wrap), (10, .fade), (10, .slide), (10, .detach)] ∧
    revealSchedule true 500 .nan .nan =
      .ok [(0, .insert), (if 500 = 0 then 10 else 500, .slide),
           (if 500 = 0 then 10 else 500, .fade), (if 500 = 0 then 10 else 500, .cleanup)] ∧
    (detachSchedule .nan .nan).map Prod.snd =
      [.disableInputs, .wrap, .fade, .slide, .detach] :=
  schedules_nan_degrade 500

/-! ## Claim C10 -/

/-- C10: `hideAndRemove` disables every descendant input of the removed
item as its very first action — before the wrap and before any
fade/slide/detach phase — and marks the item as removing; the phase
order of the detach schedule holds for arbitrary durations, with
`disableInputs` first. -/
theorem hideAndRemove_disables_inputs_first (it : LItem) (fade slide : JSNum) :
    (hideAndRemoveSync it).content.inputs =
      List.replicate it.content.inputs.length true ∧
    (hideAndRemoveSync it).removing = true ∧
    (hideAndRemoveSync it).id = it.id ∧
    (hideAndRemoveSync it).key = it.key ∧
    (detachSchedule fade slide).map Prod.snd =
      [.disableInputs, .wrap, .fade, .slide, .detach] := by
  refine ⟨?_, rfl, rfl, rfl, rfl⟩
  unfold hideAndRemoveSync
  simp [List.map_const']

/-- Witness for C10: the removed item `B`, whose content is given one
enabled input, ends up with that input disabled. -/
theorem hideAndRemove_disables_inputs_first_witness :
    (hideAndRemoveSync ⟨3, "B", some "tb", ⟨true, [false], "cb"⟩, false⟩).content.inputs =
      List.replicate (⟨true, [false], "cb"⟩ : Content).inputs.length true ∧
    (hideAndRemoveSync ⟨3, "B", some "tb", ⟨true, [false], "cb"⟩, false⟩).removing = true ∧
    (hideAndRemoveSync ⟨3, "B", some "tb", ⟨true, [false], "cb"⟩, false⟩).id =
      (⟨3, "B", some "tb", ⟨true, [false], "cb"⟩, false⟩ : LItem).id ∧
    (hideAndRemoveSync ⟨3, "B", some "tb", ⟨true, [false], "cb"⟩, false⟩).key =
      (⟨3, "B", some "tb", ⟨true, [false], "cb"⟩, false⟩ : LItem).key ∧
    (detachSchedule (.num 1) (.num 2)).map Prod.snd =
      [.disableInputs, .wrap, .fade, .slide, .detach] :=
  hideAndRemove_disables_inputs_first ⟨3, "B", some "tb", ⟨true, [false], "cb"⟩, false⟩
    (.num 1) (.num 2)

/-! ## Self-merge lemmas (towards idempotence) -/

theorem contentApply_self (n : CNode) (ht : jsTruthy n.cache = false) :
    contentApply n n = n := by
  unfold contentApply
  rw [ht]
  rfl

theorem mergeContentOne_self (live : List CNode) (n : CNode)
    (hnd : (live.map CNode.key).Nodup) (hn : n ∈ live) :
    mergeContentOne live n = .ok live := by
  have hf : findByKey CNode.key n.key live = some n :=
    findByKey_mem_nodup CNode.key live n hnd hn
  rw [mergeContentOne_found live n n hf]
  cases ht : jsTruthy n.cache with
  | false =>
      have hcond : contentReplaceCond n n = true := by
        unfold contentReplaceCond
        rw [ht]
        rfl
      rw [hcond, if_pos rfl]
      congr 1
      unfold updateByKey
      apply updateFirst_eq_self
      intro a ha hpa
      have ha' : a = n := List.inj_on_of_nodup_map hnd ha hn (eq_of_beq hpa)
      rw [ha']
      exact contentApply_self n ht
  | true =>
      have hcond : contentReplaceCond n n = false := by
        unfold contentReplaceCond
        rw [ht, bne_self_eq_false]
        rfl
      rw [hcond]
      simp

theorem mergeContentPass_self (news : List CNode) :
    ∀ live : List CNode, (∀ n ∈ news, n ∈ live) → (live.map CNode.key).Nodup →
      mergeContentPass news live = .ok live := by
  induction news with
  | nil => intro live _ _; rfl
  | cons n rest ih =>
      intro live hsub hnd
      rw [mergeContentPass, List.foldlM_cons,
        mergeContentOne_self live n hnd (hsub n (List.mem_cons_self n rest))]
      simp only [Bind.bind, Except.bind]
      exact ih live (fun m hm => hsub m (List.mem_cons_of_mem n hm)) hnd

theorem setAttribute_mem_nodup (l : List (String × String)) (k v : String)
    (hnd : (l.map Prod.fst).Nodup) (hkv : (k, v) ∈ l) :
    setAttribute l k v = l := by
  unfold setAttribute
  have hany : l.any (fun p => p.1 == k) = true := by
    rw [List.any_eq_true]
    exact ⟨(k, v), hkv, by simp⟩
  rw [if_pos hany]
  have hcg : l.map (fun p => if p.1 == k then (k, v) else p) = l.map id := by
    apply List.map_congr_left
    intro p hp
    cases hpk : (p.1 == k) with
    | false =>
        rw [if_neg Bool.false_ne_true]
        rfl
    | true =>
        have hfst : p.1 = (k, v).1 := eq_of_beq hpk
        have hpe : p = (k, v) := List.inj_on_of_nodup_map hnd hp hkv hfst
        rw [if_pos rfl, hpe]
        rfl
  rw [hcg, List.map_id]

theorem syncAttrs_sub_self (news : List (String × String)) :
    ∀ t : List (String × String), (∀ p ∈ news, p ∈ t) → (t.map Prod.fst).Nodup →
      syncAttrs t news = t := by
  induction news with
  | nil => intro t _ _; rfl
  | cons p rest ih =>
      intro t hsub hnd
      rw [syncAttrs_cons,
        setAttribute_mem_nodup t p.1 p.2 hnd (hsub p (List.mem_cons_self p rest))]
      exact ih t (fun q hq => hsub q (List.mem_cons_of_mem p hq)) hnd

theorem mergeAttrOne_self (live : List ANode) (n : ANode)
    (hnd : (live.map ANode.key).Nodup) (hn : n ∈ live)
    (hattrs : ∀ a ∈ live, (a.attrs.map Prod.fst).Nodup) :
    mergeAttrOne live n = .ok live := by
  have hf : findByKey ANode.key n.key live = some n :=
    findByKey_mem_nodup ANode.key live n hnd hn
  rw [mergeAttrOne_found live n n hf]
  congr 1
  unfold updateByKey
  apply updateFirst_eq_self
  intro a ha hpa
  have ha' : a = n := List.inj_on_of_nodup_map hnd ha hn (eq_of_beq hpa)
  rw [ha']
  show attrApply n n = n
  unfold attrApply
  rw [syncAttrs_sub_self n.attrs n.attrs (fun p hp => hp) (hattrs n hn)]

theorem mergeAttrPass_self (news : List ANode) :
    ∀ live : List ANode, (∀ n ∈ news, n ∈ live) → (live.map ANode.key).Nodup →
      (∀ a ∈ live, (a.attrs.map Prod.fst).Nodup) →
      mergeAttrPass news live = .ok live := by
  induction news with
  | nil => intro live _ _ _; rfl
  | cons n rest ih =>
      intro live hsub hnd hattrs
      rw [mergeAttrPass, List.foldlM_cons,
        mergeAttrOne_self live n hnd (hsub n (List.mem_cons_self n rest)) hattrs]
      simp only [Bind.bind, Except.bind]
      exact ih live (fun m hm => hsub m (List.mem_cons_of_mem n hm)) hnd hattrs

theorem removePass_all_matched (news items : List LItem)
    (h : ∀ it ∈ items, news.any (fun n => n.key == it.key) = true) :
    removePass news items = (items, []) := by
  have h1 : (removePass news items).1 = items := by
    rw [removePass_fst]
    have hcg : items.map (fun it =>
        if news.any (fun n => n.key == it.key) then it else hideAndRemoveSync it) =
        items.map id := by
      apply List.map_congr_left
      intro it hit
      rw [h it hit, if_pos rfl]
      rfl
    rw [hcg, List.map_id]
  have h2 : (removePass news items).2 = [] := by
    rw [removePass_snd]
    have hfe : items.filter (fun it => !news.any (fun n => n.key == it.key)) = [] := by
      rw [List.filter_eq_nil_iff]
      intro it hit
      rw [h it hit]
      simp
    rw [hfe]
    rfl
  rw [Prod.ext_iff]
  exact ⟨h1, h2⟩

theorem listItemApply_self (n : LItem) (ht : jsTruthy n.cache = false) :
    listItemApply n n = n := by
  unfold listItemApply
  rw [ht, if_neg Bool.false_ne_true]

theorem insertUpdateStep_self (items : List LItem) (n : LItem) (i : Nat) (evs : List MEv)
    (hk : (items.map LItem.key).Nodup) (hid : (items.map LItem.id).Nodup)
    (hn : n ∈ items) :
    insertUpdateStep ⟨items, items.map LItem.id, evs⟩ i n =
      .ok ⟨items, items.map LItem.id, evs⟩ := by
  have hmatch : trackedMatch items (items.map LItem.id) n.key = some n := by
    rw [trackedMatch_eq_find items hid items n.key (fun x hx => hx)]
    exact findByKey_mem_nodup LItem.key items n hk hn
  unfold insertUpdateStep
  rw [hmatch]
  show (if listReplaceCond n n then
      Except.ok { items := updItem items n.id (listItemApply n),
                  tracked := items.map LItem.id, evs := evs }
    else Except.ok ⟨items, items.map LItem.id, evs⟩) =
    Except.ok (⟨items, items.map LItem.id, evs⟩ : LState)
  cases hc : listReplaceCond n n with
  | false => rw [if_neg Bool.false_ne_true]
  | true =>
      have ht : jsTruthy n.cache = false := by
        unfold listReplaceCond at hc
        rw [bne_self_eq_false] at hc
        simpa using hc
      rw [if_pos rfl]
      have hupd : updItem items n.id (listItemApply n) = items := by
        unfold updItem
        have hcg : items.map (fun it => if it.id == n.id then listItemApply n it else it) =
            items.map id := by
          apply List.map_congr_left
          intro it hit
          cases hb : (it.id == n.id) with
          | false =>
              rw [if_neg Bool.false_ne_true]
              rfl
          | true =>
              have hie : it = n := List.inj_on_of_nodup_map hid hit hn (eq_of_beq hb)
              rw [if_pos rfl, hie, listItemApply_self n ht]
              rfl
        rw [hcg, List.map_id]
      rw [hupd]

theorem foldlM_insertUpdateStep_fixed (pairs : List (Nat × LItem)) (st : LState)
    (h : ∀ p ∈ pairs, insertUpdateStep st p.1 p.2 = .ok st) :
    pairs.foldlM (fun s p => insertUpdateStep s p.1 p.2) st = .ok st := by
  induction pairs with
  | nil => rfl
  | cons p rest ih =>
      rw [List.foldlM_cons, h p (List.mem_cons_self p rest)]
      simp only [Bind.bind, Except.bind]
      exact ih (fun q hq => h q (List.mem_cons_of_mem p hq))

theorem snd_mem_of_mem_enumFrom (l : List α) :
    ∀ (j : Nat) (p : Nat × α), p ∈ l.enumFrom j → p.2 ∈ l := by
  induction l with
  | nil => intro j p hp; simp [List.enumFrom] at hp
  | cons a t ih =>
      intro j p hp
      rw [List.enumFrom] at hp
      rcases List.mem_cons.mp hp with h | hp'
      · rw [h]
        exact List.mem_cons_self a t
      · exact List.mem_cons_of_mem a (ih (j + 1) p hp')

theorem insertUpdateLoop_self (items : List LItem) (evs : List MEv)
    (hk : (items.map LItem.key).Nodup) (hid : (items.map LItem.id).Nodup) :
    insertUpdateLoop items ⟨items, items.map LItem.id, evs⟩ =
      .ok ⟨items, items.map LItem.id, evs⟩ := by
  unfold insertUpdateLoop
  apply foldlM_insertUpdateStep_fixed
  intro p hp
  have hp' : p ∈ items.enumFrom 0 := by
    rw [← List.enum]
    exact hp
  exact insertUpdateStep_self items p.2 p.1 evs hk hid
    (snd_mem_of_mem_enumFrom items 0 p hp')

theorem mergeListOne_found (acc : List LList × List MEv) (nl tl : LList)
    (hf : findByKey LList.key nl.key acc.1 = some tl)
    (rp1 : List LItem) (rp2 : List MEv)
    (hrp : removePass nl.items tl.items = (rp1, rp2)) :
    mergeListOne acc nl =
      (match insertUpdateLoop nl.items ⟨rp1, trackedOf rp1, acc.2 ++ rp2⟩ with
       | .error e => .error e
       | .ok st =>
           .ok (updateByKey LList.key nl.key (fun l => { l with items := st.items }) acc.1,
                st.evs)) := by
  unfold mergeListOne
  rw [hf]
  show (let pr := removePass nl.items tl.items
        let tracked := List.map LItem.id (List.filter (fun it => !it.removing) pr.1)
        match insertUpdateLoop nl.items ⟨pr.1, tracked, acc.2 ++ pr.2⟩ with
        | Except.error e => Except.error e
        | Except.ok st =>
            Except.ok
              (updateByKey LList.key nl.key (fun l => { l with items := st.items }) acc.1,
               st.evs)) =
    (match insertUpdateLoop nl.items ⟨rp1, trackedOf rp1, acc.2 ++ rp2⟩ with
     | Except.error e => Except.error e
     | Except.ok st =>
         Except.ok
           (updateByKey LList.key nl.key (fun l => { l with items := st.items }) acc.1,
            st.evs))
  rw [hrp]
  rfl

theorem mergeListOne_self (liveLists : List LList) (nl : LList) (evs0 : List MEv)
    (hnd : (liveLists.map LList.key).Nodup) (hn : nl ∈ liveLists)
    (hitems : ∀ l ∈ liveLists, (l.items.map LItem.key).Nodup ∧
      (l.items.map LItem.id).Nodup ∧ ∀ it ∈ l.items, it.removing = false) :
    mergeListOne (liveLists, evs0) nl = .ok (liveLists, evs0) := by
  have hf : findByKey LList.key nl.key liveLists = some nl :=
    findByKey_mem_nodup LList.key liveLists nl hnd hn
  obtain ⟨hk, hid, hrem⟩ := hitems nl hn
  have hrp : removePass nl.items nl.items = (nl.items, []) := by
    apply removePass_all_matched
    intro it hit
    rw [List.any_eq_true]
    exact ⟨it, hit, by simp⟩
  rw [mergeListOne_found (liveLists, evs0) nl nl hf nl.items [] hrp]
  have htr : trackedOf nl.items = nl.items.map LItem.id := by
    unfold trackedOf
    have hfe : nl.items.filter (fun it => !it.removing) = nl.items := by
      rw [List.filter_eq_self]
      intro it hit
      rw [hrem it hit]
      rfl
    rw [hfe]
  rw [htr, List.append_nil, insertUpdateLoop_self nl.items evs0 hk hid]
  show Except.ok
      (updateByKey LList.key nl.key (fun l => { l with items := nl.items }) liveLists,
       evs0) = _
  have hupd : updateByKey LList.key nl.key
      (fun l => { l with items := nl.items }) liveLists = liveLists := by
    unfold updateByKey
    apply updateFirst_eq_self
    intro a ha hpa
    have ha' : a = nl := List.inj_on_of_nodup_map hnd ha hn (eq_of_beq hpa)
    rw [ha']
  rw [hupd]

theorem foldlM_mergeListOne_fixed (ls : List LList) (acc : List LList × List MEv)
    (h : ∀ nl ∈ ls, mergeListOne acc nl = .ok acc) :
    ls.foldlM mergeListOne acc = .ok acc := by
  induction ls with
  | nil => rfl
  | cons nl rest ih =>
      rw [List.foldlM_cons, h nl (List.mem_cons_self nl rest)]
      simp only [Bind.bind, Except.bind]
      exact ih (fun q hq => h q (List.mem_cons_of_mem nl hq))

/-! ## Claim C7 -/

/-- C7: merging a container with an identical fragment — same markers
in the same order, same keys and same cache tokens everywhere, with
well-formed unique keys/ids/attribute names and no item already
mid-removal — leaves the live container exactly as it was, emits no
detach or reveal trigger, and performs no reload. -/
theorem mergeNodes_idempotent (c : Container)
    (hcn : (c.cnodes.map CNode.key).Nodup)
    (han : (c.anodes.map ANode.key).Nodup)
    (hattrs : ∀ a ∈ c.anodes, (a.attrs.map Prod.fst).Nodup)
    (hln : (c.lists.map LList.key).Nodup)
    (hitems : ∀ l ∈ c.lists, (l.items.map LItem.key).Nodup ∧
      (l.items.map LItem.id).Nodup ∧ ∀ it ∈ l.items, it.removing = false) :
    mergeNodes c c = { result := some (c, []), reloads := 0 } := by
  have h1 : mergeContentPass c.cnodes c.cnodes = .ok c.cnodes :=
    mergeContentPass_self c.cnodes c.cnodes (fun n hn => hn) hcn
  have h2 : mergeAttrPass c.anodes c.anodes = .ok c.anodes :=
    mergeAttrPass_self c.anodes c.anodes (fun n hn => hn) han hattrs
  have h3 : mergeListPass c.lists c.lists = .ok (c.lists, []) := by
    unfold mergeListPass
    apply foldlM_mergeListOne_fixed
    intro nl hnl
    exact mergeListOne_self c.lists nl [] hln hnl hitems
  have hbody : mergeBody c c = .ok (c, []) := by
    unfold mergeBody
    rw [h1]
    simp only [Bind.bind, Except.bind]
    rw [h2]
    simp only [Bind.bind, Except.bind]
    rw [h3]
  unfold mergeNodes
  rw [hbody]

/-- Witness for C7: a concrete container with all three marker kinds is
merged onto itself without any mutation, trigger or reload. -/
theorem mergeNodes_idempotent_witness :
    mergeNodes exMixed exMixed = { result := some (exMixed, []), reloads := 0 } :=
  mergeNodes_idempotent exMixed (by decide) (by decide) (by decide) (by decide)
    (by decide)

end Theme
